import Mathlib

/-!
# Verification of `squanch/qstream.py`

A shallow embedding of the quantum data-stream module. The Python code
stores complex amplitudes in numpy arrays; we embed the amplitudes as exact
complex rationals (`QC`), 1-D arrays as `List QC` and 2-D arrays as
`List (List QC)` (numpy 2-D arrays are rectangular; rectangularity appears
as an explicit hypothesis where it matters). Python exceptions are embedded
as `Except Err`, with `Err` covering both the errors the numpy operations
actually raise and the error taxonomy of the design document (so that
claims naming a particular error kind can be stated and, where the code
raises a different one, refuted).
-/

/-- Complex numbers with exact rational real and imaginary parts: the
embedding of the `np.complex64` amplitudes (exact arithmetic in place of
floating point, so the algebraic laws are stated exactly). -/
@[ext]
structure QC where
  re : ℚ
  im : ℚ
  deriving DecidableEq, Repr

namespace QC

def add (a b : QC) : QC := ⟨a.re + b.re, a.im + b.im⟩

def mul (a b : QC) : QC := ⟨a.re * b.re - a.im * b.im, a.re * b.im + a.im * b.re⟩

def neg (a : QC) : QC := ⟨-a.re, -a.im⟩

/-- Complex conjugate. -/
def conj (a : QC) : QC := ⟨a.re, -a.im⟩

/-- Squared modulus `|a|²`, a rational. -/
def normSq (a : QC) : ℚ := a.re * a.re + a.im * a.im

instance : Zero QC := ⟨⟨0, 0⟩⟩
instance : One QC := ⟨⟨1, 0⟩⟩
instance : Add QC := ⟨add⟩
instance : Mul QC := ⟨mul⟩
instance : Neg QC := ⟨neg⟩

instance : CommRing QC where
  add := (· + ·)
  mul := (· * ·)
  neg := (- ·)
  zero := 0
  one := 1
  nsmul := nsmulRec
  zsmul := zsmulRec
  add_assoc a b c := QC.ext
    (show a.re + b.re + c.re = a.re + (b.re + c.re) by ring)
    (show a.im + b.im + c.im = a.im + (b.im + c.im) by ring)
  zero_add a := QC.ext
    (show 0 + a.re = a.re by ring) (show 0 + a.im = a.im by ring)
  add_zero a := QC.ext
    (show a.re + 0 = a.re by ring) (show a.im + 0 = a.im by ring)
  add_comm a b := QC.ext
    (show a.re + b.re = b.re + a.re by ring)
    (show a.im + b.im = b.im + a.im by ring)
  neg_add_cancel a := QC.ext
    (show -a.re + a.re = 0 by ring) (show -a.im + a.im = 0 by ring)
  mul_assoc a b c := QC.ext
    (show (a.re * b.re - a.im * b.im) * c.re -
        (a.re * b.im + a.im * b.re) * c.im =
        a.re * (b.re * c.re - b.im * c.im) -
        a.im * (b.re * c.im + b.im * c.re) by ring)
    (show (a.re * b.re - a.im * b.im) * c.im +
        (a.re * b.im + a.im * b.re) * c.re =
        a.re * (b.re * c.im + b.im * c.re) +
        a.im * (b.re * c.re - b.im * c.im) by ring)
  one_mul a := QC.ext
    (show 1 * a.re - 0 * a.im = a.re by ring)
    (show 1 * a.im + 0 * a.re = a.im by ring)
  mul_one a := QC.ext
    (show a.re * 1 - a.im * 0 = a.re by ring)
    (show a.re * 0 + a.im * 1 = a.im by ring)
  left_distrib a b c := QC.ext
    (show a.re * (b.re + c.re) - a.im * (b.im + c.im) =
        a.re * b.re - a.im * b.im + (a.re * c.re - a.im * c.im) by ring)
    (show a.re * (b.im + c.im) + a.im * (b.re + c.re) =
        a.re * b.im + a.im * b.re + (a.re * c.im + a.im * c.re) by ring)
  right_distrib a b c := QC.ext
    (show (a.re + b.re) * c.re - (a.im + b.im) * c.im =
        a.re * c.re - a.im * c.im + (b.re * c.re - b.im * c.im) by ring)
    (show (a.re + b.re) * c.im + (a.im + b.im) * c.re =
        a.re * c.im + a.im * c.re + (b.re * c.im + b.im * c.re) by ring)
  zero_mul a := QC.ext
    (show 0 * a.re - 0 * a.im = 0 by ring)
    (show 0 * a.im + 0 * a.re = 0 by ring)
  mul_zero a := QC.ext
    (show a.re * 0 - a.im * 0 = 0 by ring)
    (show a.re * 0 + a.im * 0 = 0 by ring)
  mul_comm a b := QC.ext
    (show a.re * b.re - a.im * b.im = b.re * a.re - b.im * a.im by ring)
    (show a.re * b.im + a.im * b.re = b.re * a.im + b.im * a.re by ring)

instance : StarRing QC where
  star := conj
  star_involutive a := QC.ext rfl (show - -a.im = a.im by ring)
  star_mul a b := QC.ext
    (show a.re * b.re - a.im * b.im = b.re * a.re - -b.im * -a.im by ring)
    (show -(a.re * b.im + a.im * b.re) = b.re * -a.im + -b.im * a.re by ring)
  star_add a b := QC.ext rfl (show -(a.im + b.im) = -a.im + -b.im by ring)

end QC

/-!
## Errors

Constructors cover both what the embedded numpy operations actually raise
(`indexOutOfRange` for out-of-bounds array indexing, `dimensionMismatch`
for `np.dot` shape errors and failed broadcasting assignment,
`negativeDimension` for `np.repeat` with a negative count) and the design
document's taxonomy names that the code never raises (`invalidDimension`,
`streamExhausted`), so claims naming those can be settled.
-/

inductive Err where
  | indexOutOfRange
  | dimensionMismatch
  | negativeDimension
  | invalidDimension
  | streamExhausted
  deriving DecidableEq, Repr

/-!
## Numpy primitives used by the source
-/

/-- Numpy 1-D row indexing `rows[i]` with Python negative-index
wrap-around: `-n ≤ i < 0` addresses row `n + i`; anything outside
`[-n, n)` raises `IndexError`. -/
def npRow (rows : List (List QC)) (i : ℤ) : Except Err (List QC) :=
  if h : 0 ≤ i ∧ i < rows.length then
    .ok (rows.get ⟨i.toNat, by omega⟩)
  else if h' : -(rows.length : ℤ) ≤ i ∧ i < 0 then
    .ok (rows.get ⟨(i + rows.length).toNat, by omega⟩)
  else
    .error .indexOutOfRange

/-- One entry of `np.dot(op, v)`: the dot product of a row with `v`
(lengths are checked by `npDot` before this is used). -/
def dotRow (r v : List QC) : QC :=
  (List.zipWith (fun a b => a * b) r v).sum

/-- `np.dot(op, v)` for a rectangular 2-D `op` and 1-D `v`: requires the
row length (number of columns) to equal `v`'s length, else raises a
shape-mismatch `ValueError`, embedded as `dimensionMismatch`. -/
def npDot (op : List (List QC)) (v : List QC) : Except Err (List QC) :=
  if op.all (fun r => r.length = v.length) then
    .ok (op.map (fun r => dotRow r v))
  else
    .error .dimensionMismatch

/-- Numpy in-place assignment `dest[...] = src` for 1-D arrays: accepted
when the lengths agree, broadcast when `src` has length 1 (every entry of
`dest` is overwritten with the single value), otherwise a broadcasting
`ValueError`, embedded as `dimensionMismatch`. Returns the new contents
of `dest`. -/
def npAssign (dest src : List QC) : Except Err (List QC) :=
  if src.length = dest.length then .ok src
  else
    match src with
    | [s] => .ok (List.replicate dest.length s)
    | _ => .error .dimensionMismatch

/-- `np.repeat([row], m, axis=0)`: `m` copies of `row`; a negative `m`
raises `ValueError: negative dimensions are not allowed`, embedded as
`negativeDimension`. -/
def npRepeat (row : List QC) (m : ℤ) : Except Err (List (List QC)) :=
  if m < 0 then .error .negativeDimension
  else .ok (List.replicate m.toNat row)

/-!
## The embedded source (`src/squanch/qstream.py`)
-/

/-- Modelled from the spec: `linalg.tensorProd` lives in the external
`linalg` module, which is not under `src/`. Per §6 of the design document
it is the Kronecker (tensor) product of two vectors, "used once per qubit
during stream construction" starting from an empty accumulator — so the
empty vector must act as the identity for the fold in `QStream.__init__`
to build up the product. `kron(a, b)[i * len b + j] = a i * b j`. -/
def tensorProd (a b : List QC) : List QC :=
  match a with
  | [] => b
  | _ :: _ => (a.map (fun x => b.map (fun y => x * y))).flatten

/-- `initialQubitState = np.array([1, 0])`: the single-qubit ket-0 state. -/
def initialQubitState : List QC := [1, 0]

/-- The loop in `QStream.__init__`:
`for _ in range(2): initialSystemState = linalg.tensorProd(initialSystemState, initialQubitState)`
starting from the empty array. Note the source iterates `range(2)`, not
`range(systemSize)`: the result is always the two-qubit state
`[1, 0, 0, 0]` of length 4. -/
def initialSystemState : List QC :=
  (List.range 2).foldl (fun acc _ => tensorProd acc initialQubitState) []

/-- The quantum data stream: `state` is the 2-D storage
(`numSystems` rows), `index` the head cursor (named `index` in the
source). `numSystems` itself is not stored by the source; it is
`state.length`. -/
structure QStream where
  state : List (List QC)
  index : ℕ
  deriving DecidableEq, Repr

/-- A view on one row of the stream's storage. The source's derived field
`numQubits = int(np.log2(self.state.size))` is exposed as
`QSystem.numQubits` below. -/
structure QSystem where
  state : List QC
  deriving DecidableEq, Repr

/-- `QStream.__init__(systemSize, numSystems)`: builds
`initialSystemState` (ignoring `systemSize` — see the `range(2)` loop) and
repeats it `numSystems` times. The only failure path in the source is
`np.repeat` with a negative count; no positivity validation is performed. -/
def QStream.init (systemSize numSystems : ℤ) : Except Err QStream :=
  match npRepeat initialSystemState numSystems with
  | .ok rows => .ok ⟨rows, 0⟩
  | .error e => .error e

/-- `QStream.system(index)`: `QSystem(self.state[index])` — numpy row
indexing (with Python wrap-around for negative indices), wrapped in a
`QSystem` view. Pure accessor: takes the stream and returns only the
view, mutating nothing. -/
def QStream.system (qs : QStream) (index : ℤ) : Except Err QSystem :=
  match npRow qs.state index with
  | .ok row => .ok ⟨row⟩
  | .error e => .error e

/-- `QStream.pop()`: `sys = self.system(self.index); self.index += 1;
return sys`. The returned stream is the post-call object: on success the
cursor advanced by one; when `system` raises, the exception propagates
before the increment executes, so the cursor is unchanged. -/
def QStream.pop (qs : QStream) : Except Err QSystem × QStream :=
  match qs.system qs.index with
  | .ok s => (.ok s, { qs with index := qs.index + 1 })
  | .error e => (.error e, qs)

/-- `QSystem.numQubits = int(np.log2(self.state.size))`: `Nat.log2` is
the exact floor of the base-2 logarithm, which is what the float
computation followed by `int` truncation produces for every realizable
array size (`np.log2` is exact on powers of two and truncation equals
floor below the float64 precision threshold). -/
def QSystem.numQubits (q : QSystem) : ℕ := Nat.log2 q.state.length

/-- `QSystem.apply(operator)`:
`self.state[...] = np.dot(operator, self.state)` — the matrix-vector
product followed by in-place assignment into the row. Either step can
raise, in which case the row is left unmodified (the assignment never
began); on success the returned view holds the new row contents. The
commented-out Hermitian assertion in the source performs no check. -/
def QSystem.apply (q : QSystem) (operator : List (List QC)) : Except Err QSystem :=
  match npDot operator q.state with
  | .ok w =>
    match npAssign q.state w with
    | .ok v => .ok ⟨v⟩
    | .error e => .error e
  | .error e => .error e

/-- Iterated `pop()`: performs `k` successive `pop()` calls, collecting
the state vectors of the returned views in order; stops at the first
failure. A claim-level harness for "calling `pop()` `numSystems` times in
a row". -/
def QStream.popList (qs : QStream) : ℕ → Except Err (List (List QC)) × QStream
  | 0 => (.ok [], qs)
  | k + 1 =>
    match qs.pop with
    | (.ok s, qs') =>
      match qs'.popList k with
      | (.ok l, q) => (.ok (s.state :: l), q)
      | (.error e, q) => (.error e, q)
    | (.error e, qs') => (.error e, qs')

/-- Squared Euclidean norm of a state vector (`Σ |amplitude|²`), exact. -/
def normSqL (v : List QC) : ℚ := (v.map QC.normSq).sum

/-!
## Matrix bridge

Relates the list-based numpy embedding to Mathlib matrices over `QC`, so
that the algebraic claims (unitarity round trip, norm preservation) can be
stated and proved with matrix algebra.
-/

open scoped Matrix

/-- The `m × n` matrix carried by a rectangular list-of-rows. -/
def toMat (m n : ℕ) (op : List (List QC)) : Matrix (Fin m) (Fin n) QC :=
  Matrix.of fun i j => (op.getD i []).getD j 0

/-- The `n`-vector carried by a list. -/
def toVec (n : ℕ) (v : List QC) : Fin n → QC := fun j => v.getD j 0

/-- Conjugate transpose at the list level: the numpy caller's
`operator.conj().T` for an operator with `cols` columns. -/
def ctransL (cols : ℕ) (op : List (List QC)) : List (List QC) :=
  (List.range cols).map (fun j => op.map (fun r => QC.conj (r.getD j 0)))

/-!
## Arithmetic lemmas for `QC`
-/

namespace QC

theorem zero_def : (0 : QC) = ⟨0, 0⟩ := rfl

theorem one_def : (1 : QC) = ⟨1, 0⟩ := rfl

theorem add_def (a b : QC) : a + b = ⟨a.re + b.re, a.im + b.im⟩ := rfl

theorem mul_def (a b : QC) :
    a * b = ⟨a.re * b.re - a.im * b.im, a.re * b.im + a.im * b.re⟩ := rfl

theorem neg_def (a : QC) : -a = ⟨-a.re, -a.im⟩ := rfl

theorem star_def (a : QC) : star a = conj a := rfl

theorem conj_mul_self_re (a : QC) : (conj a * a).re = normSq a := by
  simp [conj, mul_def, normSq]

theorem re_add (a b : QC) : (a + b).re = a.re + b.re := rfl

theorem re_zero : (0 : QC).re = 0 := rfl

theorem im_zero : (0 : QC).im = 0 := rfl

theorem re_one : (1 : QC).re = 1 := rfl

theorem im_one : (1 : QC).im = 0 := rfl

theorem re_sum {ι : Type} (s : Finset ι) (f : ι → QC) :
    (∑ i ∈ s, f i).re = ∑ i ∈ s, (f i).re := by
  classical
  induction s using Finset.induction_on with
  | empty => simp [re_zero]
  | insert ha ih => simp [Finset.sum_insert ha, re_add, ih]

end QC

theorem ctransL_length (cols : ℕ) (op : List (List QC)) :
    (ctransL cols op).length = cols := by
  simp [ctransL]

theorem ctransL_rect (cols : ℕ) (op : List (List QC)) :
    ∀ r ∈ ctransL cols op, r.length = op.length := by
  intro r hr
  simp only [ctransL, List.mem_map] at hr
  obtain ⟨j, _, rfl⟩ := hr
  simp

/-- The list-level conjugate transpose carries the matrix-level one. -/
theorem toMat_ctransL (n : ℕ) (op : List (List QC)) (hlen : op.length = n) :
    toMat n n (ctransL n op) = (toMat n n op)ᴴ := by
  funext j i
  simp only [toMat, Matrix.of_apply, Matrix.conjTranspose_apply]
  have hj : (j : ℕ) < (List.range n).length := by simp [j.isLt]
  have h1 : (ctransL n op).getD j [] = op.map (fun r => QC.conj (r.getD j 0)) := by
    rw [ctransL, List.getD_eq_getElem _ _ (by simpa using j.isLt), List.getElem_map,
      List.getElem_range]
  rw [h1]
  have hi : (i : ℕ) < op.length := by omega
  rw [List.getD_eq_getElem _ _ (by simpa using hi), List.getElem_map,
    List.getD_eq_getElem _ _ hi]
  rfl

/-- The dot product of equal-length lists as a `Fin`-indexed sum. -/
theorem dotRow_eq_sum : ∀ (r v : List QC), r.length = v.length →
    dotRow r v = ∑ j : Fin v.length, r.getD j 0 * v.get j := by
  intro r
  induction r with
  | nil =>
    intro v hv
    have hnil : v = [] := by cases v <;> simp_all
    subst hnil
    simp [dotRow]
  | cons a r ih =>
    intro v hv
    cases v with
    | nil => simp at hv
    | cons b v' =>
      have h' : r.length = v'.length := by simpa using hv
      simp only [dotRow, List.zipWith_cons_cons, List.sum_cons] at ih ⊢
      simp [Fin.sum_univ_succ, ih v' h', List.getD_cons_succ, List.getD_cons_zero]

/-- `np.dot` on a rectangular square-or-not operator agrees with
`Matrix.mulVec` of the carried matrix. -/
theorem npDot_eq_mulVec (op : List (List QC)) (v : List QC)
    (hrect : ∀ r ∈ op, r.length = v.length) :
    npDot op v = .ok (List.ofFn
      ((toMat op.length v.length op).mulVec (toVec v.length v))) := by
  have hall : op.all (fun r => r.length = v.length) = true := by
    rw [List.all_eq_true]; intro r hr; simpa using hrect r hr
  rw [npDot, if_pos hall]
  congr 1
  apply List.ext_getElem
  · simp
  intro i h1 h2
  simp only [List.getElem_map, List.getElem_ofFn]
  have hi : i < op.length := by simpa using h1
  rw [dotRow_eq_sum _ v (hrect _ (List.getElem_mem hi))]
  simp only [toMat, toVec, Matrix.mulVec, Matrix.dotProduct, Matrix.of_apply]
  apply Finset.sum_congr rfl
  intro j _
  rw [List.getD_eq_getElem op _ hi, List.getD_eq_getElem v _ j.isLt,
    List.get_eq_getElem]

/-- `QSystem.apply` on a square rectangular operator succeeds and computes
the matrix-vector product of the carried matrix. -/
theorem apply_eq_mulVec (q : QSystem) (op : List (List QC))
    (hsq : op.length = q.state.length)
    (hrect : ∀ r ∈ op, r.length = q.state.length) :
    q.apply op = .ok ⟨List.ofFn
      ((toMat op.length q.state.length op).mulVec
        (toVec q.state.length q.state))⟩ := by
  unfold QSystem.apply
  rw [npDot_eq_mulVec op q.state hrect]
  unfold npAssign
  simp [hsq]

/-- Reading back a vector written by `List.ofFn`. -/
theorem toVec_ofFn (n : ℕ) (f : Fin n → QC) : toVec n (List.ofFn f) = f := by
  funext j
  rw [toVec, List.getD_eq_getElem _ _ (by simpa using j.isLt), List.getElem_ofFn]

/-- `normSqL` as the real part of the Hermitian inner product. -/
theorem normSqL_eq_dot (n : ℕ) (v : List QC) (hn : v.length = n) :
    normSqL v = (Matrix.dotProduct (star (toVec n v)) (toVec n v)).re := by
  subst hn
  conv_lhs => rw [normSqL, ← List.ofFn_get v, List.map_ofFn, List.sum_ofFn]
  rw [Matrix.dotProduct, QC.re_sum]
  apply Finset.sum_congr rfl
  intro j _
  simp only [Function.comp_apply, Pi.star_apply, toVec, QC.star_def]
  rw [List.getD_eq_getElem _ _ (by simpa using j.isLt)]
  rw [QC.conj_mul_self_re]
  rfl

/-- A unitary matrix preserves the Hermitian inner product of a vector
with itself. -/
theorem star_dot_mulVec {n : ℕ} (M : Matrix (Fin n) (Fin n) QC)
    (x : Fin n → QC) (h : Mᴴ * M = 1) :
    Matrix.dotProduct (star (M.mulVec x)) (M.mulVec x) =
      Matrix.dotProduct (star x) x := by
  rw [Matrix.star_mulVec, Matrix.dotProduct_mulVec, Matrix.vecMul_vecMul, h,
    Matrix.vecMul_one]

/-!
## Stream access lemmas
-/

/-- `system` at the in-range natural cursor returns the view on that row. -/
theorem QStream.system_at_nat (qs : QStream) (h : qs.index < qs.state.length) :
    qs.system qs.index = .ok ⟨qs.state.getD qs.index []⟩ := by
  unfold QStream.system npRow
  rw [dif_pos ⟨Int.natCast_nonneg _, by exact_mod_cast h⟩]
  simp [List.getD_eq_getElem _ _ h, List.get_eq_getElem,
    List.getElem?_eq_getElem h]

/-- A successful `pop`: the view on the cursor row, cursor advanced. -/
theorem QStream.pop_ok (qs : QStream) (h : qs.index < qs.state.length) :
    qs.pop = (.ok ⟨qs.state.getD qs.index []⟩, ⟨qs.state, qs.index + 1⟩) := by
  unfold QStream.pop
  rw [QStream.system_at_nat qs h]

/-- `pop` past the end: the row access raises `IndexError` and the cursor
is not incremented. -/
theorem QStream.pop_exhausted (qs : QStream) (h : qs.state.length ≤ qs.index) :
    qs.pop = (.error .indexOutOfRange, qs) := by
  unfold QStream.pop QStream.system npRow
  rw [dif_neg (by omega), dif_neg (by omega)]

/-- `k` successive `pop`s from cursor position `index` return the rows
`index, index+1, …, index+k-1` in order and advance the cursor by `k`. -/
theorem QStream.popList_ok (k : ℕ) : ∀ qs : QStream,
    qs.index + k ≤ qs.state.length →
    qs.popList k = (.ok ((qs.state.drop qs.index).take k),
      ⟨qs.state, qs.index + k⟩) := by
  induction k with
  | zero => intro qs _; simp [QStream.popList]
  | succ k ih =>
    intro qs h
    have hlt : qs.index < qs.state.length := by omega
    simp only [QStream.popList, QStream.pop_ok qs hlt]
    rw [ih ⟨qs.state, qs.index + 1⟩ (by simp; omega)]
    rw [List.drop_eq_getElem_cons hlt, List.take_succ_cons,
      List.getD_eq_getElem _ _ hlt]
    simp [Nat.add_assoc]
    omega

/-!
## Claim theorems
-/

/-- C1: the claim says each row of `QStream(s, m)` is the `s`-fold tensor
product of `[1, 0]`, of length `2^s`. The code's construction loop is
`for _ in range(2)`, not `range(systemSize)`, contradicting its own
docstring ("each system has dimension 2^systemSize"): every row is
`[1, 0, 0, 0]` of length `4` for every `systemSize`. Evaluated here at the
failing input `systemSize = 1, numSystems = 1`: the row has length `4`,
not `2^1`. -/
theorem init_row_always_dimension_four (systemSize : ℤ) :
    QStream.init systemSize 1 = .ok ⟨[[1, 0, 0, 0]], 0⟩ ∧
    [(1 : QC), 0, 0, 0].length ≠ 2 ^ (1 : ℕ) := by
  constructor
  · norm_num [QStream.init, npRepeat, initialSystemState, tensorProd,
      initialQubitState, List.range_succ, QC.mul_def, QC.ext_iff, QC.re_one,
      QC.im_one, QC.re_zero, QC.im_zero, List.replicate]
  · norm_num

/-- C2 counterexample: `QStream(0, 1)` (non-positive `systemSize`)
constructs successfully — no `InvalidDimension` error is raised. -/
theorem init_accepts_nonpositive_systemSize :
    QStream.init 0 1 = .ok ⟨[[1, 0, 0, 0]], 0⟩ := by
  norm_num [QStream.init, npRepeat, initialSystemState, tensorProd,
    initialQubitState, List.range_succ, QC.mul_def, QC.ext_iff, QC.re_one,
    QC.im_one, QC.re_zero, QC.im_zero, List.replicate]

/-- C2 (amended): the constructor performs no positivity validation:
`systemSize` is ignored entirely, any `numSystems ≥ 0` (including `0`)
silently builds `numSystems` rows, and only a negative `numSystems` fails
— with the replication's negative-dimension error, not
`InvalidDimension`. -/
theorem init_no_validation (systemSize numSystems : ℤ) :
    (numSystems < 0 →
      QStream.init systemSize numSystems = .error .negativeDimension) ∧
    (0 ≤ numSystems →
      QStream.init systemSize numSystems =
        .ok ⟨List.replicate numSystems.toNat initialSystemState, 0⟩) := by
  constructor
  · intro h
    unfold QStream.init npRepeat
    rw [if_pos h]
  · intro h
    unfold QStream.init npRepeat
    rw [if_neg (by omega)]

theorem init_no_validation_witness :
    QStream.init 7 (-3) = .error .negativeDimension :=
  (init_no_validation 7 (-3)).1 (by norm_num)

/-- C3: `pop()` is `system(head)` followed by `head += 1`; consequently a
fresh stream (cursor `0`) popped `numSystems` times yields the views over
rows `0, 1, …, numSystems − 1` in that order, leaving the cursor at
`numSystems`. -/
theorem pop_equals_system_then_advance (qs : QStream) :
    (qs.index < qs.state.length →
      qs.pop = (qs.system qs.index, ⟨qs.state, qs.index + 1⟩)) ∧
    (qs.index = 0 →
      qs.popList qs.state.length =
        (.ok qs.state, ⟨qs.state, qs.state.length⟩)) := by
  constructor
  · intro h
    rw [QStream.pop_ok qs h, QStream.system_at_nat qs h]
  · intro h0
    have h := QStream.popList_ok qs.state.length qs (by omega)
    rw [h, h0]
    simp

theorem pop_equals_system_then_advance_witness :
    QStream.popList ⟨[[1, 0, 0, 0]], 0⟩ 1 =
      (.ok [[1, 0, 0, 0]], ⟨[[1, 0, 0, 0]], 1⟩) := by
  have h := (pop_equals_system_then_advance ⟨[[1, 0, 0, 0]], 0⟩).2 rfl
  simpa using h

/-- C4 counterexample: popping an exhausted stream (cursor `1`, one row)
fails with the row access's `IndexError` (`indexOutOfRange`), which is a
different error from the design document's dedicated `StreamExhausted` —
the source performs no exhaustion check of its own. -/
theorem exhausted_pop_error_kind :
    QStream.pop ⟨[[1, 0, 0, 0]], 1⟩ =
      (.error .indexOutOfRange, ⟨[[1, 0, 0, 0]], 1⟩) ∧
    Err.indexOutOfRange ≠ Err.streamExhausted := by
  constructor
  · norm_num [QStream.pop, QStream.system, npRow]
  · decide

/-- C4 (amended): `pop()` with `head == numSystems` does fail — but with
the `IndexOutOfRange` error of the unchecked row access, not with a
dedicated `StreamExhausted` error. -/
theorem pop_at_end_raises_indexOutOfRange (qs : QStream)
    (h : qs.index = qs.state.length) :
    qs.pop = (.error .indexOutOfRange, qs) :=
  QStream.pop_exhausted qs (by omega)

theorem pop_at_end_raises_indexOutOfRange_witness :
    QStream.pop ⟨[], 0⟩ = (.error .indexOutOfRange, ⟨[], 0⟩) :=
  pop_at_end_raises_indexOutOfRange ⟨[], 0⟩ rfl

/-- C5 counterexample: `system(-1)` on a one-row stream does not fail: it
returns the view over the last row (Python/numpy negative-index
wrap-around), refuting "fails with IndexOutOfRange for every index
< 0". -/
theorem system_negative_index_wraps :
    QStream.system ⟨[[1, 0, 0, 0]], 0⟩ (-1) = .ok ⟨[1, 0, 0, 0]⟩ ∧
    (-1 : ℤ) < 0 := by
  constructor
  · norm_num [QStream.system, npRow]
  · norm_num

/-- C5 (amended): `system(index)` fails with `IndexOutOfRange` exactly
when `index ≥ numSystems` or `index < -numSystems`; an index in
`[-numSystems, 0)` wraps around to row `numSystems + index`, and an index
in `[0, numSystems)` returns that row. In every case `system` is a pure
accessor: it returns only the view, and the stream value (cursor and
storage) is untouched by construction. -/
theorem system_index_semantics (qs : QStream) (i : ℤ) :
    ((i < -(qs.state.length : ℤ) ∨ (qs.state.length : ℤ) ≤ i) →
      qs.system i = .error .indexOutOfRange) ∧
    (-(qs.state.length : ℤ) ≤ i → i < 0 →
      qs.system i = .ok ⟨qs.state.getD (i + qs.state.length).toNat []⟩) ∧
    (0 ≤ i → i < (qs.state.length : ℤ) →
      qs.system i = .ok ⟨qs.state.getD i.toNat []⟩) := by
  unfold QStream.system npRow
  refine ⟨?_, ?_, ?_⟩
  · intro h
    rw [dif_neg (by omega), dif_neg (by omega)]
  · intro h1 h2
    rw [dif_neg (by omega), dif_pos ⟨h1, h2⟩]
    have hlt : (i + qs.state.length).toNat < qs.state.length := by omega
    simp [List.getD_eq_getElem _ _ hlt, List.get_eq_getElem,
      List.getElem?_eq_getElem hlt]
  · intro h1 h2
    rw [dif_pos ⟨h1, h2⟩]
    have hlt : i.toNat < qs.state.length := by omega
    simp [List.getD_eq_getElem _ _ hlt, List.get_eq_getElem,
      List.getElem?_eq_getElem hlt]

theorem system_index_semantics_witness :
    QStream.system ⟨[[1, 0, 0, 0]], 0⟩ 5 = .error .indexOutOfRange :=
  (system_index_semantics ⟨[[1, 0, 0, 0]], 0⟩ 5).1 (Or.inr (by norm_num))

/-- C7 counterexample: a `QSystem` over a row of length `3` (not a power
of two) is not a construction error: `numQubits` silently becomes the
truncated value `int(log2 3) = 1`, and `2 ^ numQubits ≠ 3`. -/
theorem numQubits_truncates_on_non_power_of_two :
    QSystem.numQubits ⟨[1, 0, 0]⟩ = 1 ∧
    2 ^ QSystem.numQubits ⟨([1, 0, 0] : List QC)⟩ ≠
      [(1 : QC), 0, 0].length := by
  constructor <;> norm_num [QSystem.numQubits, Nat.log2]

/-- C7 (amended): `numQubits` is the floor of the base-2 logarithm of the
row length: exact on powers of two, silently truncated (no error) on any
other positive length. -/
theorem numQubits_is_floor_log2 (v : List QC) :
    (∀ k : ℕ, v.length = 2 ^ k → QSystem.numQubits ⟨v⟩ = k) ∧
    (1 ≤ v.length →
      2 ^ QSystem.numQubits ⟨v⟩ ≤ v.length ∧
      v.length < 2 ^ (QSystem.numQubits ⟨v⟩ + 1)) := by
  constructor
  · intro k hk
    simp [QSystem.numQubits, hk, Nat.log2_eq_log_two,
      Nat.log_pow (by norm_num : (1 : ℕ) < 2)]
  · intro h1
    simp only [QSystem.numQubits, Nat.log2_eq_log_two]
    exact ⟨Nat.pow_log_le_self 2 (by omega),
      Nat.lt_pow_succ_log_self (by norm_num) _⟩

theorem numQubits_is_floor_log2_witness :
    QSystem.numQubits ⟨[1, 0, 0, 0]⟩ = 2 :=
  (numQubits_is_floor_log2 [1, 0, 0, 0]).1 2 (by norm_num)

/-- C10: when `pop()` fails because the cursor is at or beyond the number
of systems, the failing row access raises before the increment line runs,
so the cursor (and the whole stream) is left unchanged. -/
theorem failing_pop_preserves_cursor (qs : QStream)
    (h : qs.state.length ≤ qs.index) :
    (qs.pop).1 = .error .indexOutOfRange ∧ (qs.pop).2 = qs := by
  rw [QStream.pop_exhausted qs h]
  exact ⟨rfl, rfl⟩

theorem failing_pop_preserves_cursor_witness :
    (QStream.pop ⟨[[1, 0, 0, 0]], 2⟩).1 = .error .indexOutOfRange ∧
    (QStream.pop ⟨[[1, 0, 0, 0]], 2⟩).2 = ⟨[[1, 0, 0, 0]], 2⟩ :=
  failing_pop_preserves_cursor ⟨[[1, 0, 0, 0]], 2⟩ (by simp)

/-!
## Further bridge lemmas for the algebraic claims
-/

/-- Casting the row-count index set of the product to the square size. -/
theorem ofFn_mulVec_cast (op : List (List QC)) (v : List QC)
    (hsq : op.length = v.length) :
    List.ofFn ((toMat op.length v.length op).mulVec (toVec v.length v)) =
    List.ofFn ((toMat v.length v.length op).mulVec (toVec v.length v)) := by
  apply List.ext_getElem
  · simp [hsq]
  intro i h1 h2
  simp only [List.getElem_ofFn]
  rfl

/-- `QSystem.apply` on a square rectangular operator, stated with an
explicit dimension `n`. -/
theorem apply_spec (n : ℕ) (v : List QC) (hv : v.length = n)
    (op : List (List QC)) (hsq : op.length = n)
    (hrect : ∀ r ∈ op, r.length = n) :
    QSystem.apply ⟨v⟩ op = .ok ⟨List.ofFn
      ((toMat n n op).mulVec (toVec n v))⟩ := by
  subst hv
  rw [apply_eq_mulVec ⟨v⟩ op hsq hrect, ofFn_mulVec_cast op v hsq]

theorem toVec_eq_get (v : List QC) : toVec v.length v = v.get := by
  funext j
  rw [toVec, List.getD_eq_getElem _ _ j.isLt, List.get_eq_getElem]

theorem ofFn_toVec (v : List QC) : List.ofFn (toVec v.length v) = v := by
  rw [toVec_eq_get, List.ofFn_get]

theorem normSqL_ofFn {n : ℕ} (f : Fin n → QC) :
    normSqL (List.ofFn f) = (Matrix.dotProduct (star f) f).re := by
  have h := normSqL_eq_dot n (List.ofFn f) (by simp)
  rwa [toVec_ofFn] at h

/-!
## Claim theorems (continued)
-/

/-- C6 counterexample: a `1 × 2` operator applied to a two-amplitude
(one-qubit) system is not rejected: `np.dot` yields the single product
`2·1 + 3·0 = 2` and the in-place assignment broadcasts it over both
amplitudes, silently mutating the state to `[2, 2]` with no
`DimensionMismatch` — even though the shape `1 × 2` is not
`2^numQubits × 2^numQubits = 2 × 2`. -/
theorem apply_broadcasts_single_row_operator :
    QSystem.apply ⟨[1, 0]⟩ [[⟨2, 0⟩, ⟨3, 0⟩]] = .ok ⟨[⟨2, 0⟩, ⟨2, 0⟩]⟩ ∧
    [[(⟨2, 0⟩ : QC), ⟨3, 0⟩]].length ≠
      2 ^ QSystem.numQubits ⟨[(1 : QC), 0]⟩ := by
  constructor
  · norm_num [QSystem.apply, npDot, npAssign, dotRow, QC.mul_def, QC.add_def,
      QC.re_one, QC.im_one, QC.re_zero, QC.im_zero, QC.ext_iff,
      List.replicate, QC.zero_def]
  · norm_num [QSystem.numQubits, Nat.log2]

/-- C6 (amended): `apply(operator)` fails with a dimension-mismatch error
— before any mutation of the row — whenever the operator's column count
differs from the state length, or its row count differs from both the
state length and `1`. (The excluded `1 × len` case is accepted by
broadcasting, see the counterexample; a `len × len` operator is the valid
case.) In the functional embedding failure returns no new state, matching
the in-place code where the assignment never begins. -/
theorem apply_rejects_mismatched_shapes (q : QSystem) (op : List (List QC))
    (c : ℕ) (hrect : ∀ r ∈ op, r.length = c)
    (hpos : 1 ≤ q.state.length)
    (hbad : c ≠ q.state.length ∨
      (op.length ≠ q.state.length ∧ op.length ≠ 1)) :
    q.apply op = .error .dimensionMismatch := by
  rcases hbad with hc | ⟨hr, hr1⟩
  · cases op with
    | nil =>
      have hdot : npDot ([] : List (List QC)) q.state = .ok [] := by
        unfold npDot
        rfl
      have hassign : npAssign q.state [] = .error .dimensionMismatch := by
        unfold npAssign
        rw [if_neg (by simp only [List.length_nil]; omega)]
      unfold QSystem.apply
      simp only [hdot, hassign]
    | cons r t =>
      have hmem : r.length = c := hrect r (List.mem_cons_self r t)
      have hall : ¬((r :: t).all
          (fun row => row.length = q.state.length) = true) := by
        simp [List.all_cons, hmem, hc]
      have hdot : npDot (r :: t) q.state = .error .dimensionMismatch := by
        unfold npDot
        rw [if_neg hall]
      unfold QSystem.apply
      simp only [hdot]
  · by_cases hall : op.all (fun row => row.length = q.state.length) = true
    · have hdot : npDot op q.state =
          .ok (op.map (fun r => dotRow r q.state)) := by
        unfold npDot
        rw [if_pos hall]
      have hassign : npAssign q.state (op.map (fun r => dotRow r q.state)) =
          .error .dimensionMismatch := by
        unfold npAssign
        rw [if_neg (by simpa using hr)]
        cases op with
        | nil => rfl
        | cons r t =>
          cases t with
          | nil => exact absurd rfl hr1
          | cons r2 t2 => rfl
      unfold QSystem.apply
      simp only [hdot, hassign]
    · have hdot : npDot op q.state = .error .dimensionMismatch := by
        unfold npDot
        rw [if_neg hall]
      unfold QSystem.apply
      simp only [hdot]

theorem apply_rejects_mismatched_shapes_witness :
    QSystem.apply ⟨[1, 0]⟩ [[1, 0], [0, 1], [0, 0]] =
      .error .dimensionMismatch :=
  apply_rejects_mismatched_shapes ⟨[1, 0]⟩ [[1, 0], [0, 1], [0, 0]] 2
    (by intro r hr; fin_cases hr <;> rfl)
    (by norm_num)
    (Or.inr ⟨by norm_num, by norm_num⟩)

/-- C8: applying a unitary operator `U` and then its conjugate transpose
`U†` restores the state vector exactly (the embedding computes in exact
rational-complex arithmetic, so "up to floating-point tolerance" becomes
exact equality). -/
theorem apply_unitary_roundtrip (q : QSystem) (op : List (List QC))
    (hsq : op.length = q.state.length)
    (hrect : ∀ r ∈ op, r.length = q.state.length)
    (huni : (toMat q.state.length q.state.length op)ᴴ *
      toMat q.state.length q.state.length op = 1) :
    ∃ q' : QSystem, q.apply op = .ok q' ∧
      q'.apply (ctransL q.state.length op) = .ok ⟨q.state⟩ := by
  obtain ⟨v⟩ := q
  refine ⟨_, apply_spec v.length v rfl op hsq hrect, ?_⟩
  have h2 := apply_spec v.length
    (List.ofFn ((toMat v.length v.length op).mulVec (toVec v.length v)))
    (by simp) (ctransL v.length op) (ctransL_length _ _)
    (fun r hr => by rw [ctransL_rect v.length op r hr, hsq])
  rw [toMat_ctransL v.length op hsq, toVec_ofFn, Matrix.mulVec_mulVec, huni,
    Matrix.one_mulVec, ofFn_toVec] at h2
  exact h2

theorem apply_unitary_roundtrip_witness :
    ∃ q' : QSystem, QSystem.apply ⟨[1, 0]⟩ [[0, 1], [1, 0]] = .ok q' ∧
      q'.apply (ctransL 2 [[0, 1], [1, 0]]) = .ok ⟨[1, 0]⟩ :=
  apply_unitary_roundtrip ⟨[1, 0]⟩ [[0, 1], [1, 0]] (by norm_num)
    (by intro r hr; fin_cases hr <;> rfl)
    (show (toMat 2 2 [[0, 1], [1, 0]])ᴴ * toMat 2 2 [[0, 1], [1, 0]] = 1 by
      funext i j
      fin_cases i <;> fin_cases j <;>
        norm_num [toMat, Matrix.mul_apply, Matrix.one_apply,
          Fin.sum_univ_succ, QC.mul_def, QC.add_def, QC.re_one, QC.im_one,
          QC.re_zero, QC.im_zero, QC.ext_iff, QC.conj, QC.star_def,
          QC.zero_def, QC.one_def])

/-- C9: every row of a freshly constructed stream has unit norm, and
applying a unitary operator to a unit-norm state leaves it with unit norm
(norm preservation under unitary evolution), both exactly. -/
theorem unit_norm_invariant :
    (∀ (systemSize numSystems : ℤ) (qs : QStream),
      QStream.init systemSize numSystems = .ok qs →
      ∀ r ∈ qs.state, normSqL r = 1) ∧
    (∀ (q : QSystem) (op : List (List QC)),
      op.length = q.state.length →
      (∀ r ∈ op, r.length = q.state.length) →
      (toMat q.state.length q.state.length op)ᴴ *
        toMat q.state.length q.state.length op = 1 →
      normSqL q.state = 1 →
      ∃ q', q.apply op = .ok q' ∧ normSqL q'.state = 1) := by
  constructor
  · intro s m qs h r hr
    unfold QStream.init npRepeat at h
    by_cases hm : m < 0
    · rw [if_pos hm] at h
      exact absurd h (by simp)
    · rw [if_neg hm] at h
      cases h
      have hrep := List.eq_of_mem_replicate
        (show r ∈ List.replicate m.toNat initialSystemState from hr)
      subst hrep
      norm_num [normSqL, initialSystemState, tensorProd, initialQubitState,
        List.range_succ, QC.mul_def, QC.normSq, QC.re_one, QC.im_one,
        QC.re_zero, QC.im_zero]
  · intro q op hsq hrect huni hnorm
    obtain ⟨v⟩ := q
    refine ⟨_, apply_spec v.length v rfl op hsq hrect, ?_⟩
    show normSqL (List.ofFn
      ((toMat v.length v.length op).mulVec (toVec v.length v))) = 1
    rw [normSqL_ofFn, star_dot_mulVec (toMat v.length v.length op)
      (toVec v.length v) huni, ← normSqL_eq_dot v.length v rfl]
    exact hnorm

theorem unit_norm_invariant_witness :
    normSqL [1, 0, 0, 0] = 1 ∧
    ∃ q', QSystem.apply ⟨[0, 1]⟩ [[0, 1], [1, 0]] = .ok q' ∧
      normSqL q'.state = 1 := by
  constructor
  · exact unit_norm_invariant.1 2 1 ⟨[[1, 0, 0, 0]], 0⟩
      (by norm_num [QStream.init, npRepeat, initialSystemState, tensorProd,
        initialQubitState, List.range_succ, QC.mul_def, QC.ext_iff,
        QC.re_one, QC.im_one, QC.re_zero, QC.im_zero, List.replicate])
      [1, 0, 0, 0] (by simp)
  · exact unit_norm_invariant.2 ⟨[0, 1]⟩ [[0, 1], [1, 0]]
      (by norm_num)
      (by intro r hr; fin_cases hr <;> rfl)
      (show (toMat 2 2 [[0, 1], [1, 0]])ᴴ * toMat 2 2 [[0, 1], [1, 0]] = 1 by
        funext i j
        fin_cases i <;> fin_cases j <;>
          norm_num [toMat, Matrix.mul_apply, Matrix.one_apply,
            Fin.sum_univ_succ, QC.mul_def, QC.add_def, QC.re_one, QC.im_one,
            QC.re_zero, QC.im_zero, QC.ext_iff, QC.conj, QC.star_def,
            QC.zero_def, QC.one_def])
      (by norm_num [normSqL, QC.normSq, QC.re_one, QC.im_one, QC.re_zero,
        QC.im_zero])
